import Mathlib

/-!
# inverse_bmp

A shallow embedding of `src/inverse_bmp.c` and a verification of its specification.

Conventions of the embedding:

* a byte (`uint8_t`) is a natural number below 256; a file is the list of its bytes;
* unsigned fields are reduced modulo `2 ^ 16` or `2 ^ 32`, signed 32-bit fields are the
  two's-complement reading of their 32-bit pattern;
* the C streams `image` and `inv_image` are the list of bytes not read yet and the list of
  bytes written so far;
* the file system, standard output and standard error are passed explicitly as a `World`;
* signed overflow of `3 * header->width_px` has no defined behaviour in C: the embedding
  gives it the outcome `Outcome.undefined` instead of choosing a result;
* opening the destination may fail: `inverse_bmp_in` and `main_in` take the names that can
  be created, and writing to the null stream that a failed opening leaves is
  `Outcome.undefined`; `inverse_bmp` and `main` are the case where every name can be created;
* a run of `main` records the calls of `inverse_bmp` it makes; it has no result when one of
  the calls has none.
-/

namespace InverseBmp

/-! ## Data model -/

/-- The decoded header, `struct bmp_header` (lines 16-33). -/
structure bmp_header where
  type : Nat
  size : Nat
  offset : Nat
  dib_header_size : Nat
  width_px : Int
  height_px : Int
  num_planes : Nat
  bits_per_pixel : Nat
  compression : Nat
  image_size_bytes : Nat
  x_resolution_ppm : Int
  y_resolution_ppm : Int
  num_colors : Nat
  important_colors : Nat
deriving DecidableEq

/-- Every element of the list is a value of `uint8_t`. -/
def IsBytes (l : List Nat) : Prop := ∀ b ∈ l, b < 256

instance (l : List Nat) : Decidable (IsBytes l) := by
  unfold IsBytes; infer_instance

/-- Conversion of an `int` expression to `uint16_t`. -/
def to_uint16 (x : Nat) : Nat := x % 2 ^ 16

/-- Conversion of an `int` expression to `uint32_t`. -/
def to_uint32 (x : Nat) : Nat := x % 2 ^ 32

/-- Conversion of a 32-bit pattern to `int32_t` (two's complement). -/
def to_int32 (x : Nat) : Int :=
  if x % 2 ^ 32 < 2 ^ 31 then ((x % 2 ^ 32 : Nat) : Int) else ((x % 2 ^ 32 : Nat) : Int) - 2 ^ 32

/-- Largest value of `int`. -/
def INT_MAX : Int := 2147483647

/-- Smallest value of `int`. -/
def INT_MIN : Int := -2147483648

/-! ## read_header and check_header -/

/-- The function `read_header` (lines 148-206) on the bytes the stream still holds:
`fread` delivers at most 54 of them, and fewer than 54 gives `NULL`. -/
def read_header (file : List Nat) : Option bmp_header :=
  let imgbytes := file.take 54
  let num_read := imgbytes.length
  if num_read ≠ 54 then none
  else
    let b : Nat → Nat := fun i => imgbytes.getD i 0
    some
      { type := to_uint16 ((b 0 <<< 8) ||| (b 1 <<< 0))
        size := to_uint32 ((b 2 <<< 0) ||| (b 3 <<< 8) ||| (b 4 <<< 16) ||| (b 5 <<< 24))
        offset := to_uint32 ((b 10 <<< 0) ||| (b 11 <<< 8) ||| (b 12 <<< 16) ||| (b 13 <<< 24))
        dib_header_size :=
          to_uint32 ((b 14 <<< 0) ||| (b 15 <<< 8) ||| (b 16 <<< 16) ||| (b 17 <<< 24))
        width_px := to_int32 ((b 18 <<< 0) ||| (b 19 <<< 8) ||| (b 20 <<< 16) ||| (b 21 <<< 24))
        height_px := to_int32 ((b 22 <<< 0) ||| (b 23 <<< 8) ||| (b 24 <<< 16) ||| (b 25 <<< 24))
        num_planes := to_uint16 ((b 26 <<< 0) ||| (b 27 <<< 8))
        bits_per_pixel := to_uint16 ((b 28 <<< 0) ||| (b 29 <<< 8))
        compression :=
          to_uint32 ((b 30 <<< 0) ||| (b 31 <<< 8) ||| (b 32 <<< 16) ||| (b 33 <<< 24))
        image_size_bytes :=
          to_uint32 ((b 34 <<< 0) ||| (b 35 <<< 8) ||| (b 36 <<< 16) ||| (b 37 <<< 24))
        x_resolution_ppm :=
          to_int32 ((b 38 <<< 0) ||| (b 39 <<< 8) ||| (b 40 <<< 16) ||| (b 41 <<< 24))
        y_resolution_ppm :=
          to_int32 ((b 42 <<< 0) ||| (b 43 <<< 8) ||| (b 44 <<< 16) ||| (b 45 <<< 24))
        num_colors :=
          to_uint32 ((b 46 <<< 0) ||| (b 47 <<< 8) ||| (b 48 <<< 16) ||| (b 49 <<< 24))
        important_colors :=
          to_uint32 ((b 50 <<< 0) ||| (b 51 <<< 8) ||| (b 52 <<< 16) ||| (b 53 <<< 24)) }

/-- The function `check_header` (lines 215-225). -/
def check_header (header : bmp_header) : Int :=
  if header.type = 0x4d42 then 1 else 0

/-! ## The streams of the copy phase -/

/-- State of the copy phase of `inverse_bmp`: the unread rest of `image`, the bytes written
to `inv_image` so far, and the variable `pixel`. -/
structure Streams where
  image : List Nat
  inv_image : List Nat
  pixel : Nat
deriving DecidableEq

/-- The call `fread(&pixel, 1, 1, image)`: at end of file nothing is stored and `pixel`
keeps its value. -/
def fread_pixel (s : Streams) : Streams :=
  match s.image with
  | [] => s
  | b :: rest => { s with image := rest, pixel := b }

/-- The call `fwrite(&pixel, 1, 1, inv_image)`. -/
def fwrite_pixel (s : Streams) : Streams :=
  { s with inv_image := s.inv_image ++ [s.pixel] }

/-- The assignment `pixel = (uint8_t)(255 - pixel)` (line 123). -/
def invert_pixel (s : Streams) : Streams :=
  { s with pixel := (255 - s.pixel) % 256 }

/-- The inner loop (lines 121-125), for a bound `3 * width_px` that lets it run `n` times. -/
def pixel_loop : Nat → Streams → Streams
  | 0, s => s
  | n + 1, s => pixel_loop n (fwrite_pixel (invert_pixel (fread_pixel s)))

/-- One pass of the body of the outer loop (lines 121-130): the inner loop, then the two
padding bytes. -/
def row_body (n : Nat) (s : Streams) : Streams :=
  fwrite_pixel (fread_pixel (fwrite_pixel (fread_pixel (pixel_loop n s))))

/-- The outer loop (lines 120-131), for a bound `height_px` that lets it run `rows` times. -/
def row_loop : Nat → Nat → Streams → Streams
  | 0, _, s => s
  | rows + 1, n, s => row_loop rows n (row_body n s)

/-! ## inverse_bmp -/

/-- The file system and the two output streams of the process. -/
structure World where
  files : String → Option (List Nat)
  stdout : List String
  stderr : List String

/-- Writes a message to the error stream. -/
def World.eprint (W : World) (msg : String) : World :=
  { W with stderr := W.stderr ++ [msg] }

/-- Stores a file. -/
def World.store (W : World) (name : String) (data : List Nat) : World :=
  { W with files := fun n => if n = name then some data else W.files n }

/-- What a call does: it returns a code in a new world, or its behaviour is undefined. -/
inductive Outcome where
  | undefined
  | returned (code : Int) (world : World)

/-- The code a call returned, if it returned. -/
def Outcome.code : Outcome → Option Int
  | Outcome.undefined => none
  | Outcome.returned c _ => some c

/-- The contents of a file after the call, if the call returned and the file exists. -/
def Outcome.file : Outcome → String → Option (List Nat)
  | Outcome.undefined, _ => none
  | Outcome.returned _ W, name => W.files name

/-- The pixel phase of `inverse_bmp` (lines 119-131). The bound `3 * header->width_px` is
evaluated only when the outer loop is entered; it is computed in `int`, where overflow is
undefined. -/
def invert_pixels (header : bmp_header) (s : Streams) : Option Streams :=
  if 0 < header.height_px then
    if 3 * header.width_px < INT_MIN ∨ INT_MAX < 3 * header.width_px then none
    else some (row_loop header.height_px.toNat (3 * header.width_px).toNat s)
  else some s

/-- The function `inverse_bmp` (lines 75-138) in a file system where `can_create name` tells
whether `fopen(name, "w")` succeeds. When it fails `inv_image` is `NULL`: the code does not
test it (line 106), and the `fwrite` of line 111 on a null stream has no defined behaviour
(the process is killed). The destination holds the written bytes when the call returns. -/
def inverse_bmp_in (can_create : String → Bool) (W : World) (filename : String)
    (_debug : Int) : Outcome :=
  match W.files filename with
  | none => Outcome.returned 1 (W.eprint "fopen: No such file or directory\n")
  | some image =>
    match read_header image with
    | none => Outcome.returned 1 (W.eprint "Error: failed to read header\n")
    | some header =>
      if check_header header ≠ 0 then
        Outcome.returned 1 (W.eprint "Error: Invalid header\n")
      else
        match W.files filename with
        | none => Outcome.returned 1 (W.eprint "fopen: No such file or directory\n")
        | some image =>
          let inv_name := "INV_" ++ filename
          if can_create inv_name = true then
            let imgbytes := image.take 54
            let s : Streams := { image := image.drop 54, inv_image := imgbytes, pixel := 0 }
            match invert_pixels header s with
            | none => Outcome.undefined
            | some s => Outcome.returned 0 (W.store inv_name s.inv_image)
          else Outcome.undefined

/-- The function `inverse_bmp` (lines 75-138) in a file system where every destination can
be created: `inverse_bmp_in` with an opening of the destination that succeeds. -/
def inverse_bmp (W : World) (filename : String) (debug : Int) : Outcome :=
  inverse_bmp_in (fun _ => true) W filename debug

/-! ## Reference functions and sample inputs -/

/-- The value stored by `pixel = (uint8_t)(255 - pixel)`. -/
def inv_byte (b : Nat) : Nat := (255 - b) % 256

/-- The bytes the outer loop writes when the source holds enough bytes: per row the
complements of `n` bytes, then two bytes as they are. -/
def invert_rows : Nat → Nat → List Nat → List Nat
  | 0, _, _ => []
  | rows + 1, n, l =>
    (l.take n).map inv_byte ++ ((l.drop n).take 2 ++ invert_rows rows n (l.drop (n + 2)))

/-- What the copy phase does to the byte at offset `i` of the pixel data, for rows of `n`
colour bytes: a colour byte is complemented, a padding byte is kept. -/
def transform (n i b : Nat) : Nat := if i % (n + 2) < n then inv_byte b else b

/-- The state in which the pixel phase starts: the 54 header bytes are copied. -/
def copy_start (file : List Nat) : Streams :=
  { image := file.drop 54, inv_image := file.take 54, pixel := 0 }

/-- A file of 54 zero bytes: its first two bytes are not `0x42, 0x4D`. -/
def zero_file : List Nat := List.replicate 54 0

/-- Little-endian composition of the two bytes at offsets `i` and `i + 1`, least
significant byte first, as the specification words it. -/
def le16 (b : List Nat) (i : Nat) : Nat := b.getD i 0 + 256 * b.getD (i + 1) 0

/-- Little-endian composition of the four bytes at offsets `i` to `i + 3`, least
significant byte first, as the specification words it. -/
def le32 (b : List Nat) (i : Nat) : Nat :=
  b.getD i 0 + 256 * b.getD (i + 1) 0 + 65536 * b.getD (i + 2) 0 + 16777216 * b.getD (i + 3) 0

/-- The 32-bit two's-complement signed reading of the four bytes at offsets `i` to `i + 3`:
negative exactly when the last byte is at least `0x80`. -/
def le32_signed (b : List Nat) (i : Nat) : Int :=
  if b.getD (i + 3) 0 < 0x80 then (le32 b i : Int) else (le32 b i : Int) - 4294967296

/-- A header of a 2x1 image, 24 bits per pixel, uncompressed, with the tag `BM`. -/
def sample_header_bytes : List Nat :=
  [0x42, 0x4D, 62, 0, 0, 0, 0, 0, 0, 0, 54, 0, 0, 0,
   40, 0, 0, 0, 2, 0, 0, 0, 1, 0, 0, 0, 1, 0, 24, 0,
   0, 0, 0, 0, 8, 0, 0, 0, 0, 0, 0, 0, 0, 0, 0, 0, 0, 0, 0, 0, 0, 0, 0, 0]

/-- What `read_header` decodes from `sample_header_bytes`. -/
def sample_header : bmp_header :=
  { type := 0x424D, size := 62, offset := 54, dib_header_size := 40, width_px := 2,
    height_px := 1, num_planes := 1, bits_per_pixel := 24, compression := 0,
    image_size_bytes := 8, x_resolution_ppm := 0, y_resolution_ppm := 0, num_colors := 0,
    important_colors := 0 }

/-- The 62-byte file of the concrete scenario. -/
def sample_file : List Nat := sample_header_bytes ++ [10, 20, 30, 40, 50, 60] ++ [0, 0]

/-- A world that holds the given bytes under the given name and nothing else. -/
def single_file (name : String) (data : List Nat) : World :=
  { files := fun n => if n = name then some data else none, stdout := [], stderr := [] }

/-! ## main -/

/-- Writes a message to standard output. -/
def World.print (W : World) (msg : String) : World :=
  { W with stdout := W.stdout ++ [msg] }

/-- One call of `inverse_bmp` made by `main`: its two arguments and the code it returned. -/
structure Call where
  filename : String
  debug : Int
  result : Int
deriving DecidableEq

/-- State of the loop of `main`: the world, and the calls of `inverse_bmp` made so far. -/
structure Run where
  world : World
  calls : List Call

/-- How `main` ends: its exit status, the world it leaves, and the calls of `inverse_bmp` it
made, in order. -/
structure Exit where
  status : Int
  world : World
  calls : List Call

/-- The loop of `main` (lines 51-61) over the arguments `argv[i]` still to come, in a file
system where `can_create` tells which destinations can be opened. A call of `inverse_bmp`
without defined behaviour leaves the run without a result. -/
def main_loop (can_create : String → Bool) (debug : Int) : List String → Run → Option Run
  | [], r => some r
  | arg :: rest, r =>
    match inverse_bmp_in can_create (r.world.print ("Inverting " ++ arg ++ " . . . ")) arg
        debug with
    | Outcome.undefined => none
    | Outcome.returned code W1 =>
      if code ≠ 0 then
        main_loop can_create debug rest
          { world := W1.eprint ("Error: could not inverse " ++ arg ++ "\n")
            calls := r.calls ++ [{ filename := arg, debug := debug, result := code }] }
      else
        main_loop can_create debug rest
          { world := W1.print "DONE\n"
            calls := r.calls ++ [{ filename := arg, debug := debug, result := code }] }

/-- The function `main` (lines 40-64) on the argument vector `argv`, program name first, in
a file system where `can_create` tells which destinations can be opened. An empty vector
makes `argv[1]` an access out of bounds. -/
def main_in (can_create : String → Bool) (W : World) (argv : List String) : Option Exit :=
  let argc := argv.length
  if argc = 1 ∨ (argc = 2 ∧ argv.getD 1 "" = "--debug") then
    some { status := 1
           world := W.eprint "Usage: inverse_bmp [--debug] [img1.bmp]\n"
           calls := [] }
  else
    match argv with
    | [] => none
    | _ :: args =>
      let debug : Int := if argv.getD 1 "" = "--debug" then 1 else 0
      match main_loop can_create debug args { world := W, calls := [] } with
      | none => none
      | some r => some { status := 0, world := r.world, calls := r.calls }

/-- The function `main` (lines 40-64) in a file system where every destination can be
created. -/
def main (W : World) (argv : List String) : Option Exit :=
  main_in (fun _ => true) W argv

/-- The C function `strlen`: the number of bytes of the string. -/
def strlen (s : String) : Nat := s.utf8ByteSize

/-- The size in bytes of the array that receives the name of the destination (line 104). -/
def inv_name_capacity (filename : String) : Nat := strlen filename + 5

/-! ## Conditions on the geometry and further sample inputs -/

/-- The geometry of the header lets the pixel phase run without signed overflow: the bound
`3 * width_px` is representable whenever it is evaluated. -/
def defined_geometry (header : bmp_header) : Prop :=
  0 < header.height_px → INT_MIN ≤ 3 * header.width_px ∧ 3 * header.width_px ≤ INT_MAX

instance (header : bmp_header) : Decidable (defined_geometry header) := by
  unfold defined_geometry; infer_instance

/-- A file system without the directory `INV_dir`: the name `INV_dir/a.bmp` cannot be
created, every other name can. -/
def without_inv_dir (name : String) : Bool := name != "INV_dir/a.bmp"

/-- A world that holds the sample file as `dir/a.bmp` and as `b.bmp`. -/
def batch_world : World := (single_file "dir/a.bmp" sample_file).store "b.bmp" sample_file

/-- A `BM` header that declares width 0 and height 1. -/
def narrow_header_bytes : List Nat :=
  [0x42, 0x4D, 56, 0, 0, 0, 0, 0, 0, 0, 54, 0, 0, 0,
   40, 0, 0, 0, 0, 0, 0, 0, 1, 0, 0, 0, 1, 0, 24, 0,
   0, 0, 0, 0, 2, 0, 0, 0, 0, 0, 0, 0, 0, 0, 0, 0, 0, 0, 0, 0, 0, 0, 0, 0]

/-- What `read_header` decodes from `narrow_header_bytes`. -/
def narrow_header : bmp_header :=
  { type := 0x424D, size := 56, offset := 54, dib_header_size := 40, width_px := 0,
    height_px := 1, num_planes := 1, bits_per_pixel := 24, compression := 0,
    image_size_bytes := 2, x_resolution_ppm := 0, y_resolution_ppm := 0, num_colors := 0,
    important_colors := 0 }

/-- The same state of the streams, had the bytes `p` been written to the destination
before. -/
def Streams.after (p : List Nat) (s : Streams) : Streams :=
  { s with inv_image := p ++ s.inv_image }

/-- The sample file with another pixel-data offset: byte 10 is 70 instead of 54. -/
def sample_file_shifted : List Nat := sample_file.set 10 70

/-! ## Lemmas on the streams of the copy phase -/

theorem fread_pixel_image (s : Streams) : (fread_pixel s).image = s.image.drop 1 := by
  unfold fread_pixel
  cases h : s.image <;> simp [h]

theorem fread_pixel_inv_image (s : Streams) : (fread_pixel s).inv_image = s.inv_image := by
  unfold fread_pixel
  cases h : s.image <;> simp

theorem fread_pixel_pixel_cons (s : Streams) (b : Nat) (rest : List Nat)
    (h : s.image = b :: rest) : (fread_pixel s).pixel = b := by
  unfold fread_pixel
  simp [h]

theorem pixel_loop_image (n : Nat) (s : Streams) :
    (pixel_loop n s).image = s.image.drop n := by
  induction n generalizing s with
  | zero => simp [pixel_loop]
  | succ n ih =>
    rw [pixel_loop, ih]
    simp [fwrite_pixel, invert_pixel, fread_pixel_image, Nat.add_comm]

theorem pixel_loop_length (n : Nat) (s : Streams) :
    (pixel_loop n s).inv_image.length = s.inv_image.length + n := by
  induction n generalizing s with
  | zero => simp [pixel_loop]
  | succ n ih =>
    rw [pixel_loop, ih]
    simp [fwrite_pixel, invert_pixel, fread_pixel_inv_image]
    omega

theorem pixel_loop_inv_image (n : Nat) (s : Streams) (h : n ≤ s.image.length) :
    (pixel_loop n s).inv_image = s.inv_image ++ (s.image.take n).map inv_byte := by
  induction n generalizing s with
  | zero => simp [pixel_loop]
  | succ n ih =>
    cases hs : s.image with
    | nil => simp [hs] at h
    | cons b rest =>
      have hlen : n ≤ rest.length := by simpa [hs] using h
      rw [pixel_loop, ih]
      · simp [fwrite_pixel, invert_pixel, fread_pixel_inv_image, fread_pixel_image,
          fread_pixel_pixel_cons s b rest hs, hs, inv_byte]
      · simpa [fwrite_pixel, invert_pixel, fread_pixel_image, hs] using hlen

theorem pad_image (s : Streams) :
    (fwrite_pixel (fread_pixel s)).image = s.image.drop 1 := by
  simp [fwrite_pixel, fread_pixel_image]

theorem pad_length (s : Streams) :
    (fwrite_pixel (fread_pixel s)).inv_image.length = s.inv_image.length + 1 := by
  simp [fwrite_pixel, fread_pixel_inv_image]

theorem pad_inv_image (s : Streams) (h : 1 ≤ s.image.length) :
    (fwrite_pixel (fread_pixel s)).inv_image = s.inv_image ++ s.image.take 1 := by
  cases hs : s.image with
  | nil => simp [hs] at h
  | cons b rest =>
    simp [fwrite_pixel, fread_pixel_inv_image, fread_pixel_pixel_cons s b rest hs]

theorem row_body_image (n : Nat) (s : Streams) :
    (row_body n s).image = s.image.drop (n + 2) := by
  unfold row_body
  rw [pad_image, pad_image, pixel_loop_image]
  simp [List.drop_drop]

theorem row_body_length (n : Nat) (s : Streams) :
    (row_body n s).inv_image.length = s.inv_image.length + (n + 2) := by
  unfold row_body
  rw [pad_length, pad_length, pixel_loop_length]
  omega

theorem row_body_inv_image (n : Nat) (s : Streams) (h : n + 2 ≤ s.image.length) :
    (row_body n s).inv_image
      = s.inv_image ++ ((s.image.take n).map inv_byte ++ (s.image.drop n).take 2) := by
  unfold row_body
  have h1 : 1 ≤ (pixel_loop n s).image.length := by
    rw [pixel_loop_image, List.length_drop]; omega
  have h2 : 1 ≤ (fwrite_pixel (fread_pixel (pixel_loop n s))).image.length := by
    rw [pad_image, pixel_loop_image, List.length_drop, List.length_drop]; omega
  rw [pad_inv_image _ h2, pad_inv_image _ h1, pad_image, pixel_loop_image,
    pixel_loop_inv_image n s (by omega)]
  simp only [List.append_assoc, List.append_cancel_left_eq]
  generalize s.image.drop n = t
  match t with
  | [] => simp
  | [a] => simp
  | a :: b :: r => simp

theorem row_loop_image (rows n : Nat) (s : Streams) :
    (row_loop rows n s).image = s.image.drop (rows * (n + 2)) := by
  induction rows generalizing s with
  | zero => simp [row_loop]
  | succ rows ih =>
    rw [row_loop, ih, row_body_image, List.drop_drop]
    congr 1
    rw [Nat.succ_mul]
    omega

theorem row_loop_length (rows n : Nat) (s : Streams) :
    (row_loop rows n s).inv_image.length = s.inv_image.length + rows * (n + 2) := by
  induction rows generalizing s with
  | zero => simp [row_loop]
  | succ rows ih =>
    rw [row_loop, ih, row_body_length, Nat.succ_mul]
    omega

theorem row_loop_inv_image (rows n : Nat) (s : Streams)
    (h : rows * (n + 2) ≤ s.image.length) :
    (row_loop rows n s).inv_image = s.inv_image ++ invert_rows rows n s.image := by
  induction rows generalizing s with
  | zero => simp [row_loop, invert_rows]
  | succ rows ih =>
    rw [Nat.succ_mul] at h
    have hrow : n + 2 ≤ s.image.length := by omega
    rw [row_loop, ih, row_body_inv_image n s hrow, row_body_image, invert_rows]
    · simp [List.append_assoc]
    · rw [row_body_image, List.length_drop]; omega

theorem invert_rows_length (rows n : Nat) (l : List Nat) (h : rows * (n + 2) ≤ l.length) :
    (invert_rows rows n l).length = rows * (n + 2) := by
  induction rows generalizing l with
  | zero => simp [invert_rows]
  | succ rows ih =>
    rw [Nat.succ_mul] at h
    rw [invert_rows, List.length_append, List.length_append, ih, Nat.succ_mul]
    · simp [List.length_take, List.length_drop]; omega
    · rw [List.length_drop]; omega

theorem transform_shift (n i : Nat) (h : n + 2 ≤ i) :
    transform n (i - (n + 2)) = transform n i := by
  funext b
  unfold transform
  have : (i - (n + 2)) % (n + 2) = i % (n + 2) := by
    conv_rhs => rw [← Nat.sub_add_cancel h]
    simp
  rw [this]

theorem invert_rows_get (rows n : Nat) (l : List Nat) (i : Nat)
    (h : rows * (n + 2) ≤ l.length) (hi : i < rows * (n + 2)) :
    (invert_rows rows n l)[i]? = (l[i]?).map (transform n i) := by
  induction rows generalizing l i with
  | zero => simp at hi
  | succ rows ih =>
    rw [Nat.succ_mul] at h hi
    rw [invert_rows]
    have hlen1 : ((l.take n).map inv_byte).length = n := by
      simp [List.length_take]; omega
    have hlen2 : ((l.drop n).take 2).length = 2 := by
      simp [List.length_take, List.length_drop]; omega
    by_cases h1 : i < n
    · rw [List.getElem?_append_left (by omega), List.getElem?_map, List.getElem?_take_of_lt h1]
      have hm : i % (n + 2) = i := Nat.mod_eq_of_lt (by omega)
      have : transform n i = inv_byte := by
        funext b; simp [transform, hm, h1]
      rw [this]
    · rw [List.getElem?_append_right (by omega), hlen1]
      by_cases h2 : i < n + 2
      · rw [List.getElem?_append_left (by omega), List.getElem?_take_of_lt (by omega),
          List.getElem?_drop]
        have hm : i % (n + 2) = i := Nat.mod_eq_of_lt h2
        have : transform n i = id := by
          funext b; simp [transform, hm, h1]
        rw [this, Option.map_id, id, show n + (i - n) = i by omega]
      · rw [List.getElem?_append_right (by omega), hlen2,
          ih (l.drop (n + 2)) (i - n - 2) (by rw [List.length_drop]; omega) (by omega),
          List.getElem?_drop, show n + 2 + (i - n - 2) = i by omega,
          show i - n - 2 = i - (n + 2) by omega, transform_shift n i (by omega)]

theorem pixel_loop_extends (n : Nat) (s : Streams) :
    ∃ t, (pixel_loop n s).inv_image = s.inv_image ++ t := by
  induction n generalizing s with
  | zero => exact ⟨[], by simp [pixel_loop]⟩
  | succ n ih =>
    obtain ⟨t, ht⟩ := ih (fwrite_pixel (invert_pixel (fread_pixel s)))
    refine ⟨[(invert_pixel (fread_pixel s)).pixel] ++ t, ?_⟩
    rw [pixel_loop, ht]
    simp [fwrite_pixel, invert_pixel, fread_pixel_inv_image]

theorem row_body_extends (n : Nat) (s : Streams) :
    ∃ t, (row_body n s).inv_image = s.inv_image ++ t := by
  obtain ⟨t, ht⟩ := pixel_loop_extends n s
  unfold row_body
  refine ⟨t ++ [(fread_pixel (pixel_loop n s)).pixel]
    ++ [(fread_pixel (fwrite_pixel (fread_pixel (pixel_loop n s)))).pixel], ?_⟩
  simp [fwrite_pixel, fread_pixel_inv_image, ht]

theorem row_loop_extends (rows n : Nat) (s : Streams) :
    ∃ t, (row_loop rows n s).inv_image = s.inv_image ++ t := by
  induction rows generalizing s with
  | zero => exact ⟨[], by simp [row_loop]⟩
  | succ rows ih =>
    obtain ⟨t, ht⟩ := ih (row_body n s)
    obtain ⟨u, hu⟩ := row_body_extends n s
    exact ⟨u ++ t, by rw [row_loop, ht, hu, List.append_assoc]⟩

theorem inv_byte_of_lt (x : Nat) (hx : x < 256) : inv_byte x = 255 - x := by
  unfold inv_byte
  omega

theorem inv_byte_inv_byte (x : Nat) (hx : x < 256) : inv_byte (inv_byte x) = x := by
  unfold inv_byte
  omega

theorem transform_colour (n r c : Nat) (hc : c < n) :
    transform n (r * (n + 2) + c) = inv_byte := by
  funext b
  have : (r * (n + 2) + c) % (n + 2) = c := by
    rw [Nat.add_comm, Nat.add_mul_mod_self_right, Nat.mod_eq_of_lt (by omega)]
  simp [transform, this, hc]

theorem transform_padding (n r k : Nat) (hk : k < 2) :
    transform n (r * (n + 2) + n + k) = id := by
  funext b
  have : (r * (n + 2) + n + k) % (n + 2) = n + k := by
    rw [Nat.add_assoc, Nat.add_comm, Nat.add_mul_mod_self_right, Nat.mod_eq_of_lt (by omega)]
  simp [transform, this]

theorem transform_transform (n i x : Nat) (hx : x < 256) :
    transform n i (transform n i x) = x := by
  unfold transform
  split
  · exact inv_byte_inv_byte x hx
  · rfl

theorem row_offset_lt (h n r k : Nat) (hr : r < h) (hk : k < n + 2) :
    r * (n + 2) + k < h * (n + 2) := by
  have : (r + 1) * (n + 2) ≤ h * (n + 2) := Nat.mul_le_mul_right _ hr
  rw [Nat.succ_mul] at this
  omega

/-! ## Lemmas on read_header -/

theorem lor_shiftLeft_of_lt (x a k : Nat) (hx : x < 2 ^ k) :
    x ||| (a <<< k) = x + a * 2 ^ k := by
  rw [Nat.shiftLeft_eq, Nat.lor_comm, Nat.mul_comm a, ← Nat.mul_add_lt_is_or hx a,
    Nat.add_comm]

theorem compose16 (a0 a1 : Nat) (h0 : a0 < 256) :
    (a0 <<< 0) ||| (a1 <<< 8) = a0 + 256 * a1 := by
  rw [Nat.shiftLeft_zero, lor_shiftLeft_of_lt a0 a1 8 (by omega)]
  omega

theorem compose32 (a0 a1 a2 a3 : Nat) (h0 : a0 < 256) (h1 : a1 < 256) (h2 : a2 < 256) :
    (a0 <<< 0) ||| (a1 <<< 8) ||| (a2 <<< 16) ||| (a3 <<< 24)
      = a0 + 256 * a1 + 65536 * a2 + 16777216 * a3 := by
  rw [compose16 a0 a1 h0, lor_shiftLeft_of_lt _ a2 16 (by omega),
    lor_shiftLeft_of_lt _ a3 24 (by omega)]
  omega

theorem getD_lt_of_isBytes (b : List Nat) (hb : IsBytes b) (i : Nat) : b.getD i 0 < 256 := by
  rw [List.getD_eq_getElem?_getD]
  cases h : b[i]? with
  | none => simp
  | some x =>
    have := hb x (List.getElem?_mem h)
    simpa using this

theorem to_uint16_compose (b : List Nat) (hb : IsBytes b) (i : Nat) :
    to_uint16 ((b.getD i 0 <<< 0) ||| (b.getD (i + 1) 0 <<< 8)) = le16 b i := by
  have h0 := getD_lt_of_isBytes b hb i
  have h1 := getD_lt_of_isBytes b hb (i + 1)
  rw [compose16 _ _ h0]
  unfold to_uint16 le16
  omega

theorem to_uint32_compose (b : List Nat) (hb : IsBytes b) (i : Nat) :
    to_uint32 ((b.getD i 0 <<< 0) ||| (b.getD (i + 1) 0 <<< 8) ||| (b.getD (i + 2) 0 <<< 16)
      ||| (b.getD (i + 3) 0 <<< 24)) = le32 b i := by
  have h0 := getD_lt_of_isBytes b hb i
  have h1 := getD_lt_of_isBytes b hb (i + 1)
  have h2 := getD_lt_of_isBytes b hb (i + 2)
  have h3 := getD_lt_of_isBytes b hb (i + 3)
  rw [compose32 _ _ _ _ h0 h1 h2]
  unfold to_uint32 le32
  omega

theorem to_int32_compose (b : List Nat) (hb : IsBytes b) (i : Nat) :
    to_int32 ((b.getD i 0 <<< 0) ||| (b.getD (i + 1) 0 <<< 8) ||| (b.getD (i + 2) 0 <<< 16)
      ||| (b.getD (i + 3) 0 <<< 24)) = le32_signed b i := by
  have h0 := getD_lt_of_isBytes b hb i
  have h1 := getD_lt_of_isBytes b hb (i + 1)
  have h2 := getD_lt_of_isBytes b hb (i + 2)
  have h3 := getD_lt_of_isBytes b hb (i + 3)
  rw [compose32 _ _ _ _ h0 h1 h2]
  unfold to_int32 le32_signed le32
  split <;> split <;> omega

theorem le32_signed_neg_iff (b : List Nat) (hb : IsBytes b) (i : Nat) :
    le32_signed b i < 0 ↔ 0x80 ≤ b.getD (i + 3) 0 := by
  have h0 := getD_lt_of_isBytes b hb i
  have h1 := getD_lt_of_isBytes b hb (i + 1)
  have h2 := getD_lt_of_isBytes b hb (i + 2)
  have h3 := getD_lt_of_isBytes b hb (i + 3)
  unfold le32_signed le32
  split <;> omega

theorem read_header_length (file : List Nat) (header : bmp_header)
    (h : read_header file = some header) : 54 ≤ file.length := by
  unfold read_header at h
  dsimp only at h
  split at h
  · cases h
  · rename_i hl
    rw [List.length_take] at hl
    omega

theorem read_header_none (file : List Nat) (h : file.length < 54) :
    read_header file = none := by
  unfold read_header
  have : (file.take 54).length ≠ 54 := by rw [List.length_take]; omega
  dsimp only
  rw [if_pos this]

theorem read_header_take (file : List Nat) : read_header (file.take 54) = read_header file := by
  unfold read_header
  simp [List.take_take]

theorem read_header_type (file : List Nat) (header : bmp_header)
    (h : read_header file = some header) :
    header.type
      = to_uint16 (((file.take 54).getD 0 0 <<< 8) ||| ((file.take 54).getD 1 0 <<< 0)) := by
  unfold read_header at h
  dsimp only at h
  split at h
  · cases h
  · cases h
    rfl

theorem read_header_append (hdr rest : List Nat) (hlen : hdr.length = 54) :
    read_header (hdr ++ rest) = read_header hdr := by
  rw [← read_header_take (hdr ++ rest), List.take_left' hlen]

/-! ## Lemmas on inverse_bmp -/

theorem inverse_bmp_of_steps (W : World) (filename : String) (debug : Int) (file : List Nat)
    (header : bmp_header) (s : Streams) (hfile : W.files filename = some file)
    (hhdr : read_header file = some header) (hchk : check_header header = 0)
    (hpix : invert_pixels header (copy_start file) = some s) :
    inverse_bmp W filename debug
      = Outcome.returned 0 (W.store ("INV_" ++ filename) s.inv_image) := by
  unfold copy_start at hpix
  simp [inverse_bmp, inverse_bmp_in, hfile, hhdr, hchk, hpix]

theorem inverse_bmp_accepted (W : World) (filename : String) (debug : Int) (file : List Nat)
    (hfile : W.files filename = some file)
    (hacc : (inverse_bmp W filename debug).code = some 0) :
    ∃ header s, read_header file = some header ∧ check_header header = 0 ∧
      invert_pixels header (copy_start file) = some s ∧
      inverse_bmp W filename debug
        = Outcome.returned 0 (W.store ("INV_" ++ filename) s.inv_image) := by
  cases hhdr : read_header file with
  | none => simp [inverse_bmp, inverse_bmp_in, hfile, hhdr, Outcome.code] at hacc
  | some header =>
    by_cases hchk : check_header header = 0
    · cases hpix : invert_pixels header (copy_start file) with
      | none =>
        unfold copy_start at hpix
        simp [inverse_bmp, inverse_bmp_in, hfile, hhdr, hchk, hpix, Outcome.code] at hacc
      | some s =>
        exact ⟨header, s, rfl, hchk, hpix,
          inverse_bmp_of_steps W filename debug file header s hfile hhdr hchk hpix⟩
    · simp [inverse_bmp, inverse_bmp_in, hfile, hhdr, hchk, Outcome.code] at hacc

theorem file_store_same (W : World) (code : Int) (name : String) (data : List Nat) :
    (Outcome.returned code (W.store name data)).file name = some data := by
  simp [Outcome.file, World.store]

theorem invert_pixels_rows (header : bmp_header) (s t : Streams) (w h : Nat)
    (hw : header.width_px = (w : Int)) (hh : header.height_px = (h : Int))
    (hpix : invert_pixels header s = some t) : t = row_loop h (3 * w) s := by
  unfold invert_pixels at hpix
  rw [hw, hh] at hpix
  by_cases hpos : (0 : Int) < (h : Int)
  · rw [if_pos hpos] at hpix
    by_cases hov : 3 * (w : Int) < INT_MIN ∨ INT_MAX < 3 * (w : Int)
    · simp [hov] at hpix
    · rw [if_neg hov] at hpix
      have h3 : (3 * (w : Int)).toNat = 3 * w := by omega
      simp only [Int.toNat_ofNat, h3, Option.some.injEq] at hpix
      exact hpix.symm
  · rw [if_neg hpos] at hpix
    have : h = 0 := by omega
    subst this
    simp only [Option.some.injEq] at hpix
    simp [row_loop, hpix]

/-- The output of an accepted file whose source holds the declared geometry. -/
theorem inverse_bmp_output (W : World) (filename : String) (debug : Int) (file : List Nat)
    (header : bmp_header) (w h : Nat) (hfile : W.files filename = some file)
    (hacc : (inverse_bmp W filename debug).code = some 0)
    (hhdr : read_header file = some header)
    (hw : header.width_px = (w : Int)) (hh : header.height_px = (h : Int))
    (hlen : 54 + h * (3 * w + 2) ≤ file.length) :
    (inverse_bmp W filename debug).file ("INV_" ++ filename)
      = some (file.take 54 ++ invert_rows h (3 * w) (file.drop 54)) := by
  obtain ⟨header2, s, hhdr2, _, hpix, hrun⟩ := inverse_bmp_accepted W filename debug file hfile hacc
  rw [hhdr] at hhdr2
  cases hhdr2
  have hs := invert_pixels_rows header (copy_start file) s w h hw hh hpix
  rw [hrun, file_store_same, hs, row_loop_inv_image]
  · rfl
  · simp only [copy_start, List.length_drop]; omega

theorem invert_pixels_extends (header : bmp_header) (s t : Streams)
    (hpix : invert_pixels header s = some t) : ∃ u, t.inv_image = s.inv_image ++ u := by
  unfold invert_pixels at hpix
  split at hpix
  · split at hpix
    · cases hpix
    · cases hpix
      exact row_loop_extends _ _ s
  · cases hpix
    exact ⟨[], by simp⟩

theorem inverse_bmp_output_get (W : World) (filename : String) (debug : Int)
    (file : List Nat) (header : bmp_header) (w h j : Nat)
    (hfile : W.files filename = some file)
    (hacc : (inverse_bmp W filename debug).code = some 0)
    (hhdr : read_header file = some header)
    (hw : header.width_px = (w : Int)) (hh : header.height_px = (h : Int))
    (hlen : 54 + h * (3 * w + 2) ≤ file.length) (hj : j < h * (3 * w + 2)) :
    ∃ out, (inverse_bmp W filename debug).file ("INV_" ++ filename) = some out ∧
      out[54 + j]? = (file[54 + j]?).map (transform (3 * w) j) := by
  refine ⟨_, inverse_bmp_output W filename debug file header w h hfile hacc hhdr hw hh hlen, ?_⟩
  have h54 : (file.take 54).length = 54 := by rw [List.length_take]; omega
  rw [List.getElem?_append_right (by omega), h54, show 54 + j - 54 = j by omega,
    invert_rows_get h (3 * w) (file.drop 54) j (by rw [List.length_drop]; omega) hj,
    List.getElem?_drop]

theorem invert_pixels_defined (header : bmp_header) (s t s2 : Streams)
    (hpix : invert_pixels header s = some t) : ∃ t2, invert_pixels header s2 = some t2 := by
  unfold invert_pixels at hpix ⊢
  split
  · rw [if_pos (by assumption)] at hpix
    split
    · rw [if_pos (by assumption)] at hpix
      cases hpix
    · exact ⟨_, rfl⟩
  · exact ⟨_, rfl⟩

theorem code_of_returned (o : Outcome) (c : Int) (W1 : World)
    (h : o = Outcome.returned c W1) : o.code = some c := by
  rw [h]; rfl

/-- Running `inverse_bmp` on a stored copy of the output of an accepted file. -/
theorem inverse_bmp_on_output (W W2 : World) (filename name2 : String) (debug debug2 : Int)
    (file out : List Nat) (header : bmp_header) (w h : Nat)
    (hfile : W.files filename = some file) (hbytes : IsBytes file)
    (hacc : (inverse_bmp W filename debug).code = some 0)
    (hout : (inverse_bmp W filename debug).file ("INV_" ++ filename) = some out)
    (hhdr : read_header file = some header)
    (hw : header.width_px = (w : Int)) (hh : header.height_px = (h : Int))
    (hlen : 54 + h * (3 * w + 2) ≤ file.length)
    (hfile2 : W2.files name2 = some out) :
    (inverse_bmp W2 name2 debug2).code = some 0 ∧
      ∃ out2, (inverse_bmp W2 name2 debug2).file ("INV_" ++ name2) = some out2 ∧
        ∀ i, 54 ≤ i → i < 54 + h * (3 * w + 2) →
          ∃ x, file[i]? = some x ∧ out2[i]? = some x := by
  have hout1 := inverse_bmp_output W filename debug file header w h hfile hacc hhdr hw hh hlen
  rw [hout] at hout1
  obtain ⟨header1, s, hhdr1, hchk, hpix, _⟩ :=
    inverse_bmp_accepted W filename debug file hfile hacc
  rw [hhdr] at hhdr1
  cases hhdr1
  have h54 : (file.take 54).length = 54 := by rw [List.length_take]; omega
  have hrows : (invert_rows h (3 * w) (file.drop 54)).length = h * (3 * w + 2) :=
    invert_rows_length h (3 * w) (file.drop 54) (by rw [List.length_drop]; omega)
  have houtlen : out.length = 54 + h * (3 * w + 2) := by
    cases hout1
    rw [List.length_append, h54, hrows]
  have htake : out.take 54 = file.take 54 := by
    cases hout1
    rw [List.take_append_of_le_length (by omega), List.take_take]
    simp
  have hhdr2 : read_header out = some header := by
    rw [← read_header_take, htake, read_header_take, hhdr]
  obtain ⟨s2, hpix2⟩ := invert_pixels_defined header (copy_start file) s (copy_start out) hpix
  have hrun2 := inverse_bmp_of_steps W2 name2 debug2 out header s2 hfile2 hhdr2 hchk hpix2
  have hacc2 := code_of_returned _ _ _ hrun2
  refine ⟨hacc2, ?_⟩
  have hout2 := inverse_bmp_output W2 name2 debug2 out header w h hfile2 hacc2 hhdr2 hw hh
    (by omega)
  refine ⟨_, hout2, ?_⟩
  intro i hi1 hi2
  obtain ⟨j, rfl⟩ : ∃ j, i = 54 + j := ⟨i - 54, by omega⟩
  have hj : j < h * (3 * w + 2) := by omega
  have hlt : 54 + j < file.length := by omega
  obtain ⟨o1, ho1, hget1⟩ := inverse_bmp_output_get W filename debug file header w h j
    hfile hacc hhdr hw hh hlen hj
  rw [hout] at ho1
  cases ho1
  obtain ⟨o2, ho2, hget2⟩ := inverse_bmp_output_get W2 name2 debug2 out header w h j
    hfile2 hacc2 hhdr2 hw hh (by omega) hj
  rw [hout2] at ho2
  cases ho2
  refine ⟨file[54 + j], List.getElem?_eq_getElem hlt, ?_⟩
  rw [hget2, hget1, List.getElem?_eq_getElem hlt, Option.map_some', Option.map_some',
    transform_transform _ _ _ (hbytes _ (List.getElem_mem hlt))]

theorem invert_pixels_in_range (header : bmp_header) (s : Streams)
    (hlo : INT_MIN ≤ 3 * header.width_px) (hhi : 3 * header.width_px ≤ INT_MAX) :
    ∃ t, invert_pixels header s = some t := by
  unfold invert_pixels
  split
  · rw [if_neg (by omega)]
    exact ⟨_, rfl⟩
  · exact ⟨_, rfl⟩

/-! ## The pixel transform (C1 to C4) -/

/-- C1: for an accepted file with decoded width `w` and height `h` that holds at least
`54 + h * (3 * w + 2)` bytes, the output byte at offset `54 + r * (3 * w + 2) + c`, for a row
`r < h` and a column byte `c < 3 * w`, is 255 minus the input byte at that offset. (That `w`
and `h` are positive follows from the bounds on `c` and `r`; that `3 * w` fits an `int`
follows from the file being accepted.) -/
theorem inverse_bmp_complements_colour_bytes (W : World) (filename : String) (debug : Int)
    (file : List Nat) (header : bmp_header) (w h r c : Nat)
    (hfile : W.files filename = some file) (hbytes : IsBytes file)
    (hacc : (inverse_bmp W filename debug).code = some 0)
    (hhdr : read_header file = some header)
    (hw : header.width_px = (w : Int)) (hh : header.height_px = (h : Int))
    (hlen : 54 + h * (3 * w + 2) ≤ file.length) (hr : r < h) (hc : c < 3 * w) :
    ∃ out x, (inverse_bmp W filename debug).file ("INV_" ++ filename) = some out ∧
      file[54 + r * (3 * w + 2) + c]? = some x ∧
      out[54 + r * (3 * w + 2) + c]? = some (255 - x) := by
  have hj : r * (3 * w + 2) + c < h * (3 * w + 2) := row_offset_lt h (3 * w) r c hr (by omega)
  obtain ⟨out, hout, hget⟩ := inverse_bmp_output_get W filename debug file header w h
    (r * (3 * w + 2) + c) hfile hacc hhdr hw hh hlen hj
  have hlt : 54 + (r * (3 * w + 2) + c) < file.length := by omega
  refine ⟨out, file[54 + (r * (3 * w + 2) + c)], hout, ?_, ?_⟩
  · rw [Nat.add_assoc, List.getElem?_eq_getElem hlt]
  · rw [Nat.add_assoc, hget, List.getElem?_eq_getElem hlt, transform_colour (3 * w) r c hc,
      Option.map_some', inv_byte_of_lt _ (hbytes _ (List.getElem_mem hlt))]

/-- Witness of C1 on the 2x1 sample file: row 0, column byte 0. -/
theorem inverse_bmp_complements_colour_bytes_witness :
    ∃ out x, (inverse_bmp (single_file "a.bmp" sample_file) "a.bmp" 0).file ("INV_" ++ "a.bmp")
        = some out ∧
      sample_file[54 + 0 * (3 * 2 + 2) + 0]? = some x ∧
      out[54 + 0 * (3 * 2 + 2) + 0]? = some (255 - x) :=
  inverse_bmp_complements_colour_bytes (single_file "a.bmp" sample_file) "a.bmp" 0 sample_file
    sample_header 2 1 0 0 (by decide) (by decide) (by decide) (by decide) (by decide)
    (by decide) (by decide) (by decide) (by decide)

/-- C2: for an accepted file with decoded width `w >= 0` and height `h > 0` that holds at
least `54 + h * (3 * w + 2)` bytes, the two output bytes that follow the `3 * w` colour bytes
of row `r < h`, at a row stride of `3 * w + 2` whatever `w` is, equal the input bytes at the
same offsets. -/
theorem inverse_bmp_copies_padding (W : World) (filename : String) (debug : Int)
    (file : List Nat) (header : bmp_header) (w h r : Nat)
    (hfile : W.files filename = some file)
    (hacc : (inverse_bmp W filename debug).code = some 0)
    (hhdr : read_header file = some header)
    (hw : header.width_px = (w : Int)) (hh : header.height_px = (h : Int))
    (hlen : 54 + h * (3 * w + 2) ≤ file.length) (hr : r < h) :
    ∃ out x y, (inverse_bmp W filename debug).file ("INV_" ++ filename) = some out ∧
      file[54 + r * (3 * w + 2) + 3 * w]? = some x ∧
      file[54 + r * (3 * w + 2) + 3 * w + 1]? = some y ∧
      out[54 + r * (3 * w + 2) + 3 * w]? = some x ∧
      out[54 + r * (3 * w + 2) + 3 * w + 1]? = some y := by
  have hj0 := row_offset_lt h (3 * w) r (3 * w + 0) hr (by omega)
  have hj1 := row_offset_lt h (3 * w) r (3 * w + 1) hr (by omega)
  obtain ⟨out, hout, hget0⟩ := inverse_bmp_output_get W filename debug file header w h
    (r * (3 * w + 2) + 3 * w + 0) hfile hacc hhdr hw hh hlen (by omega)
  obtain ⟨out1, hout1, hget1⟩ := inverse_bmp_output_get W filename debug file header w h
    (r * (3 * w + 2) + 3 * w + 1) hfile hacc hhdr hw hh hlen (by omega)
  rw [hout] at hout1
  cases hout1
  rw [transform_padding (3 * w) r 0 (by omega), Option.map_id, id] at hget0
  rw [transform_padding (3 * w) r 1 (by omega), Option.map_id, id] at hget1
  have hlt0 : 54 + r * (3 * w + 2) + 3 * w < file.length := by omega
  have hlt1 : 54 + r * (3 * w + 2) + 3 * w + 1 < file.length := by omega
  refine ⟨out, file[54 + r * (3 * w + 2) + 3 * w], file[54 + r * (3 * w + 2) + 3 * w + 1],
    hout, List.getElem?_eq_getElem hlt0, List.getElem?_eq_getElem hlt1, ?_, ?_⟩
  · rw [← List.getElem?_eq_getElem hlt0]
    simpa [Nat.add_assoc] using hget0
  · rw [← List.getElem?_eq_getElem hlt1]
    simpa [Nat.add_assoc] using hget1

/-- Witness of C2 on the 2x1 sample file: the padding of row 0. -/
theorem inverse_bmp_copies_padding_witness :
    ∃ out x y, (inverse_bmp (single_file "a.bmp" sample_file) "a.bmp" 0).file ("INV_" ++ "a.bmp")
        = some out ∧
      sample_file[54 + 0 * (3 * 2 + 2) + 3 * 2]? = some x ∧
      sample_file[54 + 0 * (3 * 2 + 2) + 3 * 2 + 1]? = some y ∧
      out[54 + 0 * (3 * 2 + 2) + 3 * 2]? = some x ∧
      out[54 + 0 * (3 * 2 + 2) + 3 * 2 + 1]? = some y :=
  inverse_bmp_copies_padding (single_file "a.bmp" sample_file) "a.bmp" 0 sample_file
    sample_header 2 1 0 (by decide) (by decide) (by decide) (by decide) (by decide)
    (by decide) (by decide)

/-- C3: for an accepted file the first 54 bytes of the output are the first 54 bytes of the
input, byte for byte (and both files have at least 54 bytes). -/
theorem inverse_bmp_preserves_header (W : World) (filename : String) (debug : Int)
    (file : List Nat) (hfile : W.files filename = some file)
    (hacc : (inverse_bmp W filename debug).code = some 0) :
    ∃ out, (inverse_bmp W filename debug).file ("INV_" ++ filename) = some out ∧
      out.take 54 = file.take 54 ∧ (file.take 54).length = 54 := by
  obtain ⟨header, s, hhdr, _, hpix, hrun⟩ := inverse_bmp_accepted W filename debug file hfile hacc
  obtain ⟨u, hu⟩ := invert_pixels_extends header (copy_start file) s hpix
  have h54 : (file.take 54).length = 54 := by
    have := read_header_length file header hhdr
    rw [List.length_take]; omega
  refine ⟨s.inv_image, by rw [hrun, file_store_same], ?_, h54⟩
  rw [hu]
  simp only [copy_start]
  rw [List.take_append_of_le_length (by omega), List.take_take]
  simp

/-- Witness of C3 on the 2x1 sample file. -/
theorem inverse_bmp_preserves_header_witness :
    ∃ out, (inverse_bmp (single_file "a.bmp" sample_file) "a.bmp" 0).file ("INV_" ++ "a.bmp")
        = some out ∧
      out.take 54 = sample_file.take 54 ∧ (sample_file.take 54).length = 54 :=
  inverse_bmp_preserves_header (single_file "a.bmp" sample_file) "a.bmp" 0 sample_file
    (by decide) (by decide)

/-- C4: for a valid input file (accepted, with decoded width `w >= 0`, height `h >= 0` and
at least `54 + h * (3 * w + 2)` bytes), the output is itself accepted, and running
`inverse_bmp` on that output gives a file whose bytes at the offsets 54 to
`54 + h * (3 * w + 2) - 1` are those of the original input. -/
theorem inverse_bmp_twice_restores_pixels (W W1 : World) (filename : String)
    (debug debug2 : Int) (file : List Nat) (header : bmp_header) (w h : Nat)
    (hfile : W.files filename = some file) (hbytes : IsBytes file)
    (hrun : inverse_bmp W filename debug = Outcome.returned 0 W1)
    (hhdr : read_header file = some header)
    (hw : header.width_px = (w : Int)) (hh : header.height_px = (h : Int))
    (hlen : 54 + h * (3 * w + 2) ≤ file.length) :
    (inverse_bmp W1 ("INV_" ++ filename) debug2).code = some 0 ∧
      ∃ out2, (inverse_bmp W1 ("INV_" ++ filename) debug2).file
          ("INV_" ++ ("INV_" ++ filename)) = some out2 ∧
        ∀ i, 54 ≤ i → i < 54 + h * (3 * w + 2) →
          ∃ x, file[i]? = some x ∧ out2[i]? = some x := by
  have hacc := code_of_returned _ _ _ hrun
  obtain ⟨out, hout⟩ : ∃ out, (inverse_bmp W filename debug).file ("INV_" ++ filename)
      = some out :=
    ⟨_, inverse_bmp_output W filename debug file header w h hfile hacc hhdr hw hh hlen⟩
  have hfile1 : W1.files ("INV_" ++ filename) = some out := by
    rw [hrun] at hout
    exact hout
  exact inverse_bmp_on_output W W1 filename ("INV_" ++ filename) debug debug2 file out header
    w h hfile hbytes hacc hout hhdr hw hh hlen hfile1

/-- Witness of C4 on the 2x1 sample file. -/
theorem inverse_bmp_twice_restores_pixels_witness :
    (inverse_bmp ((single_file "a.bmp" sample_file).store "INV_a.bmp"
        (sample_header_bytes ++ [245, 235, 225, 215, 205, 195] ++ [0, 0]))
        ("INV_" ++ "a.bmp") 0).code = some 0 ∧
      ∃ out2, (inverse_bmp ((single_file "a.bmp" sample_file).store "INV_a.bmp"
          (sample_header_bytes ++ [245, 235, 225, 215, 205, 195] ++ [0, 0]))
          ("INV_" ++ "a.bmp") 0).file ("INV_" ++ ("INV_" ++ "a.bmp")) = some out2 ∧
        ∀ i, 54 ≤ i → i < 54 + 1 * (3 * 2 + 2) →
          ∃ x, sample_file[i]? = some x ∧ out2[i]? = some x :=
  inverse_bmp_twice_restores_pixels (single_file "a.bmp" sample_file)
    ((single_file "a.bmp" sample_file).store "INV_a.bmp"
      (sample_header_bytes ++ [245, 235, 225, 215, 205, 195] ++ [0, 0]))
    "a.bmp" 0 0 sample_file sample_header 2 1 (by decide) (by decide) rfl (by decide)
    (by decide) (by decide) (by decide)

/-! ## Rejection, the concrete scenario and the end of the source (C5 to C8) -/

/-- C5 (the code at a failing input): the file of 54 zero bytes does not start with
`0x42, 0x4D`, yet `inverse_bmp` returns 0 on it and writes the output file. -/
theorem inverse_bmp_accepts_zero_file :
    zero_file.length = 54 ∧ zero_file[0]? ≠ some 0x42 ∧
      (inverse_bmp (single_file "z.bmp" zero_file) "z.bmp" 0).code = some 0 ∧
      (inverse_bmp (single_file "z.bmp" zero_file) "z.bmp" 0).file "INV_z.bmp"
        = some zero_file := by
  decide

/-- C6: for a file shorter than 54 bytes `read_header` returns no header, `inverse_bmp`
returns 1 after the message of the failed header read, and no file is created or written:
the file system is the one before the call. -/
theorem inverse_bmp_rejects_short_file (W : World) (filename : String) (debug : Int)
    (file : List Nat) (hfile : W.files filename = some file) (hshort : file.length < 54) :
    read_header file = none ∧
      ∃ W1, inverse_bmp W filename debug = Outcome.returned 1 W1 ∧ W1.files = W.files ∧
        W1.stderr = W.stderr ++ ["Error: failed to read header\n"] := by
  have hnone := read_header_none file hshort
  refine ⟨hnone, W.eprint "Error: failed to read header\n", ?_, rfl, rfl⟩
  simp [inverse_bmp, inverse_bmp_in, hfile, hnone]

/-- Witness of C6 on a file of three bytes. -/
theorem inverse_bmp_rejects_short_file_witness :
    read_header [0x42, 0x4D, 7] = none ∧
      ∃ W1, inverse_bmp (single_file "s.bmp" [0x42, 0x4D, 7]) "s.bmp" 0
          = Outcome.returned 1 W1 ∧
        W1.files = (single_file "s.bmp" [0x42, 0x4D, 7]).files ∧
        W1.stderr = (single_file "s.bmp" [0x42, 0x4D, 7]).stderr
          ++ ["Error: failed to read header\n"] :=
  inverse_bmp_rejects_short_file (single_file "s.bmp" [0x42, 0x4D, 7]) "s.bmp" 0
    [0x42, 0x4D, 7] (by decide) (by decide)

/-- C7: on the 62-byte input made of a 54-byte header that starts with `B`, `M` and
encodes width 2 and height 1 (whatever its other fields), the pixel bytes
`[10, 20, 30, 40, 50, 60]` and the padding `[0, 0]`, `inverse_bmp` returns 0 and the output
is exactly the same header bytes, then `[245, 235, 225, 215, 205, 195]`, then `[0, 0]`. -/
theorem inverse_bmp_concrete_scenario (W : World) (filename : String) (debug : Int)
    (hdr : List Nat) (header : bmp_header) (hlen : hdr.length = 54)
    (hB : hdr[0]? = some 0x42) (hM : hdr[1]? = some 0x4D)
    (hhdr : read_header hdr = some header)
    (hw : header.width_px = 2) (hh : header.height_px = 1)
    (hfile : W.files filename = some (hdr ++ [10, 20, 30, 40, 50, 60] ++ [0, 0])) :
    (inverse_bmp W filename debug).code = some 0 ∧
      (inverse_bmp W filename debug).file ("INV_" ++ filename)
        = some (hdr ++ [245, 235, 225, 215, 205, 195] ++ [0, 0]) := by
  have hhdr2 : read_header (hdr ++ [10, 20, 30, 40, 50, 60] ++ [0, 0]) = some header := by
    rw [List.append_assoc, read_header_append hdr _ hlen, hhdr]
  have htype : header.type = 0x424D := by
    rw [read_header_type hdr header hhdr, List.take_of_length_le (by omega), List.getD_eq_getElem?_getD,
      List.getD_eq_getElem?_getD, hB, hM]
    decide
  have hchk : check_header header = 0 := by
    unfold check_header
    rw [htype]
    decide
  obtain ⟨s, hpix⟩ := invert_pixels_in_range header
    (copy_start (hdr ++ [10, 20, 30, 40, 50, 60] ++ [0, 0]))
    (by rw [hw]; decide) (by rw [hw]; decide)
  have hrun := inverse_bmp_of_steps W filename debug _ header s hfile hhdr2 hchk hpix
  have hacc := code_of_returned _ _ _ hrun
  refine ⟨hacc, ?_⟩
  rw [inverse_bmp_output W filename debug _ header 2 1 hfile hacc hhdr2 (by rw [hw]; rfl)
    (by rw [hh]; rfl) (by simp [hlen])]
  have h1 : (hdr ++ [10, 20, 30, 40, 50, 60] ++ [0, 0]).take 54 = hdr := by
    rw [List.append_assoc, List.take_left' hlen]
  have h2 : (hdr ++ [10, 20, 30, 40, 50, 60] ++ [0, 0]).drop 54
      = [10, 20, 30, 40, 50, 60, 0, 0] := by
    rw [List.append_assoc, List.drop_left' hlen]
    rfl
  rw [h1, h2]
  have h3 : invert_rows 1 (3 * 2) [10, 20, 30, 40, 50, 60, 0, 0]
      = [245, 235, 225, 215, 205, 195] ++ [0, 0] := by decide
  rw [h3, List.append_assoc]

/-- Witness of C7 with a complete header of a 2x1 image, 24 bits per pixel, uncompressed. -/
theorem inverse_bmp_concrete_scenario_witness :
    (inverse_bmp (single_file "a.bmp" sample_file) "a.bmp" 0).code = some 0 ∧
      (inverse_bmp (single_file "a.bmp" sample_file) "a.bmp" 0).file ("INV_" ++ "a.bmp")
        = some (sample_header_bytes ++ [245, 235, 225, 215, 205, 195] ++ [0, 0]) :=
  inverse_bmp_concrete_scenario (single_file "a.bmp" sample_file) "a.bmp" 0
    sample_header_bytes sample_header (by decide) (by decide) (by decide) (by decide)
    (by decide) (by decide) (by decide)

/-- C9 (the code at a failing input): the sample header starts with `0x42, 0x4D`, and
`read_header` gives it the type `0x424D`, not `0x4D42`, on which `check_header` returns 0,
not 1. -/
theorem read_header_type_of_BM :
    sample_header_bytes.length = 54 ∧ sample_header_bytes.take 2 = [0x42, 0x4D] ∧
      (read_header sample_header_bytes).map (fun header => (header.type, check_header header))
        = some (0x424D, 0) := by
  decide

/-- C10: for every block `b` of 54 bytes `read_header` gives a header, and each numeric
field other than the magic is the little-endian composition of its bytes: `size`, `offset`,
`dib_header_size`, `num_planes`, `bits_per_pixel`, `compression`, `image_size_bytes`,
`num_colors` and `important_colors` as unsigned values, `width_px`, `height_px`,
`x_resolution_ppm` and `y_resolution_ppm` as 32-bit two's-complement values, negative
exactly when the last byte of the field is at least `0x80`. -/
theorem read_header_little_endian (b : List Nat) (hlen : b.length = 54) (hb : IsBytes b) :
    ∃ header, read_header b = some header ∧
      header.size = le32 b 2 ∧ header.offset = le32 b 10 ∧
      header.dib_header_size = le32 b 14 ∧
      header.num_planes = le16 b 26 ∧ header.bits_per_pixel = le16 b 28 ∧
      header.compression = le32 b 30 ∧ header.image_size_bytes = le32 b 34 ∧
      header.num_colors = le32 b 46 ∧ header.important_colors = le32 b 50 ∧
      header.width_px = le32_signed b 18 ∧ header.height_px = le32_signed b 22 ∧
      header.x_resolution_ppm = le32_signed b 38 ∧
      header.y_resolution_ppm = le32_signed b 42 ∧
      (header.width_px < 0 ↔ 0x80 ≤ b.getD 21 0) ∧
      (header.height_px < 0 ↔ 0x80 ≤ b.getD 25 0) ∧
      (header.x_resolution_ppm < 0 ↔ 0x80 ≤ b.getD 41 0) ∧
      (header.y_resolution_ppm < 0 ↔ 0x80 ≤ b.getD 45 0) := by
  have htake : b.take 54 = b := List.take_of_length_le (by omega)
  have hne : ¬ (b.take 54).length ≠ 54 := by rw [htake]; omega
  unfold read_header
  dsimp only
  rw [if_neg hne, htake]
  refine ⟨_, rfl, ?_⟩
  dsimp only
  refine ⟨to_uint32_compose b hb 2, to_uint32_compose b hb 10, to_uint32_compose b hb 14,
    to_uint16_compose b hb 26, to_uint16_compose b hb 28, to_uint32_compose b hb 30,
    to_uint32_compose b hb 34, to_uint32_compose b hb 46, to_uint32_compose b hb 50,
    to_int32_compose b hb 18, to_int32_compose b hb 22, to_int32_compose b hb 38,
    to_int32_compose b hb 42, ?_, ?_, ?_, ?_⟩
  · rw [to_int32_compose b hb 18]; exact le32_signed_neg_iff b hb 18
  · rw [to_int32_compose b hb 22]; exact le32_signed_neg_iff b hb 22
  · rw [to_int32_compose b hb 38]; exact le32_signed_neg_iff b hb 38
  · rw [to_int32_compose b hb 42]; exact le32_signed_neg_iff b hb 42

/-- Witness of C10 on the sample header. -/
theorem read_header_little_endian_witness :
    ∃ header, read_header sample_header_bytes = some header ∧
      header.size = le32 sample_header_bytes 2 ∧ header.offset = le32 sample_header_bytes 10 ∧
      header.dib_header_size = le32 sample_header_bytes 14 ∧
      header.num_planes = le16 sample_header_bytes 26 ∧
      header.bits_per_pixel = le16 sample_header_bytes 28 ∧
      header.compression = le32 sample_header_bytes 30 ∧
      header.image_size_bytes = le32 sample_header_bytes 34 ∧
      header.num_colors = le32 sample_header_bytes 46 ∧
      header.important_colors = le32 sample_header_bytes 50 ∧
      header.width_px = le32_signed sample_header_bytes 18 ∧
      header.height_px = le32_signed sample_header_bytes 22 ∧
      header.x_resolution_ppm = le32_signed sample_header_bytes 38 ∧
      header.y_resolution_ppm = le32_signed sample_header_bytes 42 ∧
      (header.width_px < 0 ↔ 0x80 ≤ sample_header_bytes.getD 21 0) ∧
      (header.height_px < 0 ↔ 0x80 ≤ sample_header_bytes.getD 25 0) ∧
      (header.x_resolution_ppm < 0 ↔ 0x80 ≤ sample_header_bytes.getD 41 0) ∧
      (header.y_resolution_ppm < 0 ↔ 0x80 ≤ sample_header_bytes.getD 45 0) :=
  read_header_little_endian sample_header_bytes (by decide) (by decide)

/-! ## Further lemmas on inverse_bmp -/

theorem invert_pixels_eq (header : bmp_header) (s t : Streams)
    (hpix : invert_pixels header s = some t) :
    t = row_loop header.height_px.toNat (3 * header.width_px).toNat s := by
  unfold invert_pixels at hpix
  split at hpix
  · split at hpix
    · cases hpix
    · cases hpix
      rfl
  · cases hpix
    have : header.height_px.toNat = 0 := by omega
    rw [this]
    rfl

theorem invert_pixels_defined_geometry (header : bmp_header) (s t : Streams)
    (hpix : invert_pixels header s = some t) : defined_geometry header := by
  intro hpos
  unfold invert_pixels at hpix
  rw [if_pos hpos] at hpix
  split at hpix
  · cases hpix
  · omega

theorem inverse_bmp_accepted_run (W : World) (filename : String) (debug : Int)
    (file : List Nat) (header : bmp_header) (hfile : W.files filename = some file)
    (hacc : (inverse_bmp W filename debug).code = some 0)
    (hhdr : read_header file = some header) :
    defined_geometry header ∧ check_header header = 0 ∧
    inverse_bmp W filename debug = Outcome.returned 0 (W.store ("INV_" ++ filename)
      (row_loop header.height_px.toNat (3 * header.width_px).toNat
        (copy_start file)).inv_image) := by
  obtain ⟨header2, s, hhdr2, hchk, hpix, hrun⟩ :=
    inverse_bmp_accepted W filename debug file hfile hacc
  rw [hhdr] at hhdr2
  cases hhdr2
  refine ⟨invert_pixels_defined_geometry header _ s hpix, hchk, ?_⟩
  rw [hrun, invert_pixels_eq header _ s hpix]

theorem invert_rows_zero_width (rows : Nat) (l : List Nat) :
    invert_rows rows 0 l = l.take (2 * rows) := by
  induction rows generalizing l with
  | zero => simp [invert_rows]
  | succ rows ih =>
    rw [invert_rows, ih, show 2 * (rows + 1) = 2 + 2 * rows by omega, List.take_add]
    simp

theorem to_uint16_magic (b0 b1 : Nat) (h0 : b0 < 256) (h1 : b1 < 256) :
    to_uint16 ((b0 <<< 8) ||| (b1 <<< 0)) = 256 * b0 + b1 := by
  rw [Nat.shiftLeft_zero, Nat.lor_comm, lor_shiftLeft_of_lt b1 b0 8 (by omega)]
  unfold to_uint16
  omega

theorem getD_take_54 (file : List Nat) (i : Nat) (hi : i < 54) :
    (file.take 54).getD i 0 = file.getD i 0 := by
  rw [List.getD_eq_getElem?_getD, List.getD_eq_getElem?_getD, List.getElem?_take_of_lt hi]

theorem strlen_append (s t : String) : strlen (s ++ t) = strlen s + strlen t := by
  cases s
  cases t
  simp [strlen, String.utf8ByteSize, String.append]



theorem read_header_some (file : List Nat) (hlen : 54 ≤ file.length) :
    ∃ header, read_header file = some header := by
  have hne : ¬ (file.take 54).length ≠ 54 := by rw [List.length_take]; omega
  unfold read_header
  dsimp only
  rw [if_neg hne]
  exact ⟨_, rfl⟩

theorem read_header_type_value (file : List Nat) (header : bmp_header)
    (hhdr : read_header file = some header) (hb : IsBytes file) :
    header.type = 256 * file.getD 0 0 + file.getD 1 0 := by
  rw [read_header_type file header hhdr, getD_take_54 file 0 (by omega),
    getD_take_54 file 1 (by omega),
    to_uint16_magic _ _ (getD_lt_of_isBytes file hb 0) (getD_lt_of_isBytes file hb 1)]

/-! ## The destination never feeds back into the copy phase -/

theorem fread_pixel_after (p : List Nat) (s : Streams) :
    fread_pixel (s.after p) = (fread_pixel s).after p := by
  unfold fread_pixel Streams.after
  cases h : s.image <;> simp [h]

theorem fwrite_pixel_after (p : List Nat) (s : Streams) :
    fwrite_pixel (s.after p) = (fwrite_pixel s).after p := by
  simp [fwrite_pixel, Streams.after]

theorem invert_pixel_after (p : List Nat) (s : Streams) :
    invert_pixel (s.after p) = (invert_pixel s).after p := by
  simp [invert_pixel, Streams.after]

theorem pixel_loop_after (n : Nat) (p : List Nat) (s : Streams) :
    pixel_loop n (s.after p) = (pixel_loop n s).after p := by
  induction n generalizing s with
  | zero => rfl
  | succ n ih =>
    rw [pixel_loop, pixel_loop, fread_pixel_after, invert_pixel_after, fwrite_pixel_after, ih]

theorem row_body_after (n : Nat) (p : List Nat) (s : Streams) :
    row_body n (s.after p) = (row_body n s).after p := by
  unfold row_body
  rw [pixel_loop_after, fread_pixel_after, fwrite_pixel_after, fread_pixel_after,
    fwrite_pixel_after]

theorem row_loop_after (rows n : Nat) (p : List Nat) (s : Streams) :
    row_loop rows n (s.after p) = (row_loop rows n s).after p := by
  induction rows generalizing s with
  | zero => rfl
  | succ rows ih => rw [row_loop, row_loop, row_body_after, ih]

theorem copy_start_after (file : List Nat) :
    copy_start file
      = Streams.after (file.take 54) { image := file.drop 54, inv_image := [], pixel := 0 } := by
  simp [copy_start, Streams.after]

theorem row_loop_copy_start (rows n : Nat) (file : List Nat) :
    (row_loop rows n (copy_start file)).inv_image
      = file.take 54
        ++ (row_loop rows n { image := file.drop 54, inv_image := [], pixel := 0 }).inv_image := by
  rw [copy_start_after, row_loop_after]
  rfl

theorem read_header_geometry (file : List Nat) (header : bmp_header)
    (h : read_header file = some header) :
    header.width_px
        = to_int32 ((file.getD 18 0 <<< 0) ||| (file.getD 19 0 <<< 8) |||
            (file.getD 20 0 <<< 16) ||| (file.getD 21 0 <<< 24)) ∧
      header.height_px
        = to_int32 ((file.getD 22 0 <<< 0) ||| (file.getD 23 0 <<< 8) |||
            (file.getD 24 0 <<< 16) ||| (file.getD 25 0 <<< 24)) := by
  unfold read_header at h
  dsimp only at h
  split at h
  · cases h
  · cases h
    dsimp only
    rw [getD_take_54 file 18 (by omega), getD_take_54 file 19 (by omega),
      getD_take_54 file 20 (by omega), getD_take_54 file 21 (by omega),
      getD_take_54 file 22 (by omega), getD_take_54 file 23 (by omega),
      getD_take_54 file 24 (by omega), getD_take_54 file 25 (by omega)]
    exact ⟨rfl, rfl⟩

theorem take_54_output (rows n : Nat) (file : List Nat) (hlen : 54 ≤ file.length) :
    ((row_loop rows n (copy_start file)).inv_image).take 54 = file.take 54 := by
  have h54 : (file.take 54).length = 54 := by rw [List.length_take]; omega
  rw [row_loop_copy_start, List.take_append_of_le_length (by omega), List.take_take]
  simp

/-! ## The magic, nonpositive geometry and the extent of the output (C11, C12, C16 to C18) -/

/-- C11: for every block `b` of 54 bytes the magic field that `read_header` produces is
composed most-significant byte first, `type = 256 * b[0] + b[1]`. -/
theorem read_header_magic_big_endian (b : List Nat) (hlen : b.length = 54) (hb : IsBytes b) :
    ∃ header, read_header b = some header ∧ header.type = 256 * b.getD 0 0 + b.getD 1 0 := by
  obtain ⟨header, hhdr⟩ := read_header_some b (by omega)
  exact ⟨header, hhdr, read_header_type_value b header hhdr hb⟩

/-- Witness of C11 on the sample header, whose type is `256 * 0x42 + 0x4D`. -/
theorem read_header_magic_big_endian_witness :
    ∃ header, read_header sample_header_bytes = some header ∧
      header.type = 256 * sample_header_bytes.getD 0 0 + sample_header_bytes.getD 1 0 :=
  read_header_magic_big_endian sample_header_bytes (by decide) (by decide)

/-- C12 (counterexample): the 54 bytes of a header that declares width 0 and height 1 are
accepted, no input byte follows the header, and the output is the header followed by the
two bytes `[0, 0]`, which are not copied from the input. -/
theorem inverse_bmp_zero_width_counterexample :
    read_header narrow_header_bytes = some narrow_header ∧
      narrow_header.width_px = 0 ∧ narrow_header.height_px = 1 ∧
      (inverse_bmp (single_file "n.bmp" narrow_header_bytes) "n.bmp" 0).code = some 0 ∧
      (inverse_bmp (single_file "n.bmp" narrow_header_bytes) "n.bmp" 0).file "INV_n.bmp"
        = some (narrow_header_bytes ++ [0, 0]) ∧
      (inverse_bmp (single_file "n.bmp" narrow_header_bytes) "n.bmp" 0).file "INV_n.bmp"
        ≠ some (narrow_header_bytes.take 54 ++ (narrow_header_bytes.drop 54).take (2 * 1)) := by
  decide

/-- C12 (amended): for an accepted file, a decoded height `<= 0` gives an output of exactly
the 54 header bytes; a height `h > 0` with a decoded width `<= 0`, on an input of at least
`54 + 2 * h` bytes, gives the 54 header bytes followed by the `2 * h` input bytes that
follow the header, none of them transformed. -/
theorem inverse_bmp_nonpositive_geometry (W : World) (filename : String) (debug : Int)
    (file : List Nat) (header : bmp_header) (hfile : W.files filename = some file)
    (hacc : (inverse_bmp W filename debug).code = some 0)
    (hhdr : read_header file = some header) :
    (header.height_px ≤ 0 →
      (inverse_bmp W filename debug).file ("INV_" ++ filename) = some (file.take 54)) ∧
    (0 < header.height_px → header.width_px ≤ 0 →
      54 + 2 * header.height_px.toNat ≤ file.length →
      (inverse_bmp W filename debug).file ("INV_" ++ filename)
        = some (file.take 54 ++ (file.drop 54).take (2 * header.height_px.toNat))) := by
  obtain ⟨_, _, hrun⟩ := inverse_bmp_accepted_run W filename debug file header hfile hacc hhdr
  rw [hrun, file_store_same]
  constructor
  · intro hh
    have : header.height_px.toNat = 0 := by omega
    rw [this]
    rfl
  · intro _ hw hlen
    have : (3 * header.width_px).toNat = 0 := by omega
    rw [this, row_loop_inv_image _ _ _ (by simp only [copy_start, List.length_drop]; omega),
      invert_rows_zero_width]
    rfl

/-- Witness of C12 (amended): the narrow header followed by the two bytes `[7, 9]`. -/
theorem inverse_bmp_nonpositive_geometry_witness :
    (narrow_header.height_px ≤ 0 →
      (inverse_bmp (single_file "n.bmp" (narrow_header_bytes ++ [7, 9])) "n.bmp" 0).file
          ("INV_" ++ "n.bmp") = some ((narrow_header_bytes ++ [7, 9]).take 54)) ∧
    (0 < narrow_header.height_px → narrow_header.width_px ≤ 0 →
      54 + 2 * narrow_header.height_px.toNat ≤ (narrow_header_bytes ++ [7, 9]).length →
      (inverse_bmp (single_file "n.bmp" (narrow_header_bytes ++ [7, 9])) "n.bmp" 0).file
          ("INV_" ++ "n.bmp")
        = some ((narrow_header_bytes ++ [7, 9]).take 54
            ++ ((narrow_header_bytes ++ [7, 9]).drop 54).take
              (2 * narrow_header.height_px.toNat))) :=
  inverse_bmp_nonpositive_geometry (single_file "n.bmp" (narrow_header_bytes ++ [7, 9]))
    "n.bmp" 0 (narrow_header_bytes ++ [7, 9]) narrow_header (by decide) (by decide)
    (by decide)

/-- C16: for an accepted file the destination that `inverse_bmp` writes is named by the
literal `INV_` put directly before the whole argument, directory components included; the
name has `strlen(p) + 4` bytes and fits, with its terminator, the array of
`strlen(p) + 5` bytes. -/
theorem inverse_bmp_destination_name (W : World) (filename : String) (debug : Int)
    (file : List Nat) (hfile : W.files filename = some file)
    (hacc : (inverse_bmp W filename debug).code = some 0) :
    (∃ out, inverse_bmp W filename debug
        = Outcome.returned 0 (W.store ("INV_" ++ filename) out)) ∧
      strlen ("INV_" ++ filename) = strlen filename + 4 ∧
      strlen ("INV_" ++ filename) + 1 ≤ inv_name_capacity filename := by
  obtain ⟨_, s, _, _, _, hrun⟩ := inverse_bmp_accepted W filename debug file hfile hacc
  have hlen : strlen ("INV_" ++ filename) = strlen filename + 4 := by
    rw [strlen_append, show strlen "INV_" = 4 by decide, Nat.add_comm]
  refine ⟨⟨s.inv_image, hrun⟩, hlen, ?_⟩
  rw [hlen]
  unfold inv_name_capacity
  omega

/-- Witness of C16 on a path with a directory component: the destination is
`INV_dir/a.bmp`. -/
theorem inverse_bmp_destination_name_witness :
    (∃ out, inverse_bmp (single_file "dir/a.bmp" sample_file) "dir/a.bmp" 0
        = Outcome.returned 0
          ((single_file "dir/a.bmp" sample_file).store ("INV_" ++ "dir/a.bmp") out)) ∧
      strlen ("INV_" ++ "dir/a.bmp") = strlen "dir/a.bmp" + 4 ∧
      strlen ("INV_" ++ "dir/a.bmp") + 1 ≤ inv_name_capacity "dir/a.bmp" :=
  inverse_bmp_destination_name (single_file "dir/a.bmp" sample_file) "dir/a.bmp" 0
    sample_file (by decide) (by decide)

/-- C18: for an accepted file with decoded width `w` and height `h` the output has exactly
`54 + max(h, 0) * (max(3 * w, 0) + 2)` bytes, whatever the length of the input. (That
`3 * w` fits an `int` when it is evaluated follows from the file being accepted.) -/
theorem inverse_bmp_output_length (W : World) (filename : String) (debug : Int)
    (file : List Nat) (header : bmp_header) (hfile : W.files filename = some file)
    (hacc : (inverse_bmp W filename debug).code = some 0)
    (hhdr : read_header file = some header) :
    ∃ out, (inverse_bmp W filename debug).file ("INV_" ++ filename) = some out ∧
      (out.length : Int)
        = 54 + max header.height_px 0 * (max (3 * header.width_px) 0 + 2) := by
  obtain ⟨_, _, hrun⟩ := inverse_bmp_accepted_run W filename debug file header hfile hacc hhdr
  refine ⟨_, by rw [hrun, file_store_same], ?_⟩
  have h54 : (file.take 54).length = 54 := by
    have := read_header_length file header hhdr
    rw [List.length_take]; omega
  rw [row_loop_length]
  simp only [copy_start, h54]
  push_cast
  rw [Int.toNat_eq_max, Int.toNat_eq_max]

/-- Witness of C18 on an input shorter than the declared extent: the sample header alone
(54 bytes, 2x1 declared) gives an output of 62 bytes. -/
theorem inverse_bmp_output_length_witness :
    ∃ out, (inverse_bmp (single_file "t.bmp" sample_header_bytes) "t.bmp" 0).file
        ("INV_" ++ "t.bmp") = some out ∧
      (out.length : Int)
        = 54 + max sample_header.height_px 0 * (max (3 * sample_header.width_px) 0 + 2) :=
  inverse_bmp_output_length (single_file "t.bmp" sample_header_bytes) "t.bmp" 0
    sample_header_bytes sample_header (by decide) (by decide) (by decide)

/-! ## The command line (C13 to C15) -/

/-- C13 (the code at a failing input): with the arguments `dir/a.bmp b.bmp`, both files
accepted, in a file system without the directory `INV_dir`, the destination of the first
call cannot be opened and the call has no result: `main` has no exit status and `b.bmp` is
never attempted. Where every destination can be created the same arguments give two calls
and the exit status 0. -/
theorem main_killed_before_later_paths :
    (inverse_bmp_in without_inv_dir (batch_world.print "Inverting dir/a.bmp . . . ")
        "dir/a.bmp" 0).code = none ∧
    (main_in without_inv_dir batch_world ["inverse_bmp", "dir/a.bmp", "b.bmp"]).map
        (fun e => (e.status, e.calls.map Call.filename)) = none ∧
    (main batch_world ["inverse_bmp", "dir/a.bmp", "b.bmp"]).map
        (fun e => (e.status, e.calls.map Call.filename))
      = some (0, ["dir/a.bmp", "b.bmp"]) := by
  decide

/-- C14 (the code at a failing input): the argument list `dir/a.bmp` is neither empty nor
the single `--debug`, and in a file system without the directory `INV_dir` the run of
`main` on it ends in the call of `inverse_bmp`, with neither the exit status 0 nor 1. -/
theorem main_no_exit_status_on_failed_open :
    ¬ (["dir/a.bmp"] = ([] : List String) ∨ ["dir/a.bmp"] = ["--debug"]) ∧
    (main_in without_inv_dir (single_file "dir/a.bmp" sample_file)
        ["inverse_bmp", "dir/a.bmp"]).map Exit.status ≠ some 0 ∧
    (main_in without_inv_dir (single_file "dir/a.bmp" sample_file)
        ["inverse_bmp", "dir/a.bmp"]).map Exit.status ≠ some 1 := by
  decide

/-- C15 (the code at a failing input): with the arguments `--debug a.bmp` the loop of
`main` starts at `argv[1]` all the same, so `inverse_bmp` is called on `--debug` and then on
`a.bmp`, and the messages about `--debug` are printed; with `a.bmp` alone the only call is
on `a.bmp`. -/
theorem main_debug_flag_is_attempted :
    (main (single_file "a.bmp" sample_file) ["inverse_bmp", "--debug", "a.bmp"]).map
        (fun e => (e.calls.map Call.filename, e.world.stdout, e.world.stderr))
      = some (["--debug", "a.bmp"],
          ["Inverting --debug . . . ", "Inverting a.bmp . . . ", "DONE\n"],
          ["fopen: No such file or directory\n", "Error: could not inverse --debug\n"]) ∧
    (main (single_file "a.bmp" sample_file) ["inverse_bmp", "a.bmp"]).map
        (fun e => (e.calls.map Call.filename, e.world.stdout, e.world.stderr))
      = some (["a.bmp"], ["Inverting a.bmp . . . ", "DONE\n"], []) := by
  decide

/-! ## The offset field (C19) -/

/-- C19: the pixel-data offset field of the header is ignored. Two accepted files of equal
length that agree outside the bytes 10 to 13 give outputs of equal length that agree
outside the bytes 10 to 13, and in those bytes each output carries the bytes of its own
input. -/
theorem inverse_bmp_ignores_offset_field (W1 W2 : World) (name1 name2 : String)
    (debug1 debug2 : Int) (f1 f2 : List Nat)
    (hfile1 : W1.files name1 = some f1) (hfile2 : W2.files name2 = some f2)
    (hacc1 : (inverse_bmp W1 name1 debug1).code = some 0)
    (hacc2 : (inverse_bmp W2 name2 debug2).code = some 0)
    (hlen : f1.length = f2.length)
    (hsame : ∀ i, i < 10 ∨ 13 < i → f1[i]? = f2[i]?) :
    ∃ out1 out2, (inverse_bmp W1 name1 debug1).file ("INV_" ++ name1) = some out1 ∧
      (inverse_bmp W2 name2 debug2).file ("INV_" ++ name2) = some out2 ∧
      out1.length = out2.length ∧
      (∀ i, i < 10 ∨ 13 < i → out1[i]? = out2[i]?) ∧
      (∀ i, 10 ≤ i → i ≤ 13 → out1[i]? = f1[i]? ∧ out2[i]? = f2[i]?) := by
  obtain ⟨h1, _, hhdr1, _, _, _⟩ := inverse_bmp_accepted W1 name1 debug1 f1 hfile1 hacc1
  obtain ⟨h2, _, hhdr2, _, _, _⟩ := inverse_bmp_accepted W2 name2 debug2 f2 hfile2 hacc2
  obtain ⟨_, _, hrun1⟩ := inverse_bmp_accepted_run W1 name1 debug1 f1 h1 hfile1 hacc1 hhdr1
  obtain ⟨_, _, hrun2⟩ := inverse_bmp_accepted_run W2 name2 debug2 f2 h2 hfile2 hacc2 hhdr2
  have hl1 := read_header_length f1 h1 hhdr1
  have hl2 := read_header_length f2 h2 hhdr2
  have hget : ∀ i, 13 < i → f1.getD i 0 = f2.getD i 0 := by
    intro i hi
    rw [List.getD_eq_getElem?_getD, List.getD_eq_getElem?_getD, hsame i (Or.inr hi)]
  obtain ⟨hw1, hh1⟩ := read_header_geometry f1 h1 hhdr1
  obtain ⟨hw2, hh2⟩ := read_header_geometry f2 h2 hhdr2
  have hw : h1.width_px = h2.width_px := by
    rw [hw1, hw2, hget 18 (by omega), hget 19 (by omega), hget 20 (by omega),
      hget 21 (by omega)]
  have hh : h1.height_px = h2.height_px := by
    rw [hh1, hh2, hget 22 (by omega), hget 23 (by omega), hget 24 (by omega),
      hget 25 (by omega)]
  have hdrop : f1.drop 54 = f2.drop 54 := by
    apply List.ext_getElem?
    intro i
    rw [List.getElem?_drop, List.getElem?_drop]
    exact hsame (54 + i) (Or.inr (by omega))
  have h541 : (f1.take 54).length = 54 := by rw [List.length_take]; omega
  have h542 : (f2.take 54).length = 54 := by rw [List.length_take]; omega
  refine ⟨_, _, by rw [hrun1, file_store_same], by rw [hrun2, file_store_same], ?_, ?_, ?_⟩
  · rw [row_loop_length, row_loop_length, hw, hh]
    simp only [copy_start, h541, h542]
  · intro i hi
    rw [row_loop_copy_start, row_loop_copy_start, hw, hh, hdrop]
    by_cases h54 : i < 54
    · rw [List.getElem?_append_left (by omega), List.getElem?_append_left (by omega),
        List.getElem?_take_of_lt h54, List.getElem?_take_of_lt h54]
      exact hsame i hi
    · rw [List.getElem?_append_right (by omega), List.getElem?_append_right (by omega),
        h541, h542]
  · intro i hi1 hi2
    rw [row_loop_copy_start, row_loop_copy_start]
    rw [List.getElem?_append_left (by omega), List.getElem?_append_left (by omega),
      List.getElem?_take_of_lt (by omega), List.getElem?_take_of_lt (by omega)]
    exact ⟨rfl, rfl⟩

/-- Witness of C19: the sample file, and the sample file with the offset field 70. -/
theorem inverse_bmp_ignores_offset_field_witness :
    ∃ out1 out2,
      (inverse_bmp (single_file "a.bmp" sample_file) "a.bmp" 0).file ("INV_" ++ "a.bmp")
        = some out1 ∧
      (inverse_bmp (single_file "b.bmp" sample_file_shifted) "b.bmp" 0).file
        ("INV_" ++ "b.bmp") = some out2 ∧
      out1.length = out2.length ∧
      (∀ i, i < 10 ∨ 13 < i → out1[i]? = out2[i]?) ∧
      (∀ i, 10 ≤ i → i ≤ 13 →
        out1[i]? = sample_file[i]? ∧ out2[i]? = sample_file_shifted[i]?) :=
  inverse_bmp_ignores_offset_field (single_file "a.bmp" sample_file)
    (single_file "b.bmp" sample_file_shifted) "a.bmp" "b.bmp" 0 0 sample_file
    sample_file_shifted (by decide) (by decide) (by decide) (by decide) (by decide)
    (fun i hi => (List.getElem?_set_ne (by omega)).symm)

end InverseBmp
